import Mathlib

/-!
Verification development for the s3Dgraphy stratigraphic-graph library.

Shallow embedding of the components under scrutiny:
* the connections datamodel loader (`edges/connections_loader.py`),
* naming utilities (`utils/utils.py`),
* the tabular importer row processing (`importer/base_importer.py`,
  `importer/mapped_xlsx_importer.py`),
* the GraphML importer: identifier adoption and slipback, document
  deduplication, edge-type enhancement, epoch bands
  (`importer/import_graphml.py`).

Where the repository's sources for the `Graph` engine and the node class
hierarchy are not available, the corresponding definitions are modelled from
the specification and carry a doc comment saying so.
-/

namespace S3Dgraphy

/-! ## Connections datamodel (edges/connections_loader.py) -/

/-- The `reverse` sub-object of a canonical edge-type entry in the
connections datamodel JSON: `{name, label}`. -/
structure ReverseDef where
  name : String
  label : String
deriving Repr, DecidableEq

/-- One value of the JSON mapping `edge_types: name -> entry`, as read by
`ConnectionsDatamodel._load_datamodel`.  The fields are the JSON keys the
loader reads: `name`, `label`, `description` (defaulted to `""`),
`allowed_connections.source`, `allowed_connections.target`, and the optional
`reverse` object.  The opaque `mapping` sub-object is copied verbatim by the
loader and never inspected by the operations under study, so it is omitted. -/
structure EdgeTypeEntry where
  name : String
  label : String
  description : String
  allowed_source : List String
  allowed_target : List String
  reverse : Option ReverseDef
deriving Repr, DecidableEq

/-- A record of `ConnectionsDatamodel._expanded_edges`: either a canonical
entry copied in the first pass or a virtual reverse entry synthesized in the
second pass (`_load_datamodel`, lines 72-104). -/
structure ExpandedDef where
  name : String
  label : String
  description : String
  allowed_source : List String
  allowed_target : List String
  is_canonical : Bool
  is_symmetric : Bool
  canonical_name : Option String
  reverse_name : Option String
deriving Repr, DecidableEq

/-- The expanded-edges dictionary, with Python `dict` lookup semantics
(later assignments overwrite earlier ones). -/
def ExpandedMap : Type := String → Option ExpandedDef

/-- The record `_load_datamodel` stores under the dict key `edgeName` for a
canonical entry (lines 74-83 of connections_loader.py). -/
def canonicalRecord (edgeDef : EdgeTypeEntry) : ExpandedDef :=
  { name := edgeDef.name
    label := edgeDef.label
    description := edgeDef.description
    allowed_source := edgeDef.allowed_source
    allowed_target := edgeDef.allowed_target
    is_canonical := true
    is_symmetric := edgeDef.reverse.isNone
    canonical_name := none
    reverse_name := edgeDef.reverse.map (fun r => r.name) }

/-- The virtual reverse record `_load_datamodel` stores under the dict key
`reverseDef.name` (lines 86-104): allowed connections inverted, description
prefixed with "Reverse of ...". -/
def reverseRecord (edgeName : String) (edgeDef : EdgeTypeEntry)
    (reverseDef : ReverseDef) : ExpandedDef :=
  { name := reverseDef.name
    label := reverseDef.label
    description := "Reverse of " ++ edgeDef.label ++ ": " ++ edgeDef.description
    allowed_source := edgeDef.allowed_target
    allowed_target := edgeDef.allowed_source
    is_canonical := false
    is_symmetric := false
    canonical_name := some edgeName
    reverse_name := none }

/-- Python dict assignment `d[k] = v`. -/
def dictInsert (m : ExpandedMap) (k : String) (v : ExpandedDef) : ExpandedMap :=
  fun x => if x = k then some v else m x

/-- One iteration of the expansion loop of `_load_datamodel`: store the
canonical record, then the reverse record when `reverse` is present. -/
def expandStep (m : ExpandedMap) (p : String × EdgeTypeEntry) : ExpandedMap :=
  let withCanonical := dictInsert m p.1 (canonicalRecord p.2)
  match p.2.reverse with
  | none => withCanonical
  | some r => dictInsert withCanonical r.name (reverseRecord p.1 p.2 r)

/-- The two-pass expansion of `_load_datamodel` over the `edge_types`
mapping, presented as the association list of the JSON object. -/
def buildExpanded (edgeTypes : List (String × EdgeTypeEntry)) : ExpandedMap :=
  edgeTypes.foldl expandStep (fun _ => none)

/-- Embeds `ConnectionsDatamodel.get_edge_definition`. -/
def get_edge_definition (m : ExpandedMap) (edgeName : String) : Option ExpandedDef :=
  m edgeName

/-- Embeds `ConnectionsDatamodel.get_label`: the label, or the queried name itself
when the edge is unknown. -/
def get_label (m : ExpandedMap) (edgeName : String) : String :=
  match m edgeName with
  | some d => d.label
  | none => edgeName

/-- Embeds `ConnectionsDatamodel.get_description`: the description, or `""` when
the edge is unknown. -/
def get_description (m : ExpandedMap) (edgeName : String) : String :=
  match m edgeName with
  | some d => d.description
  | none => ""

/-- Embeds `ConnectionsDatamodel.is_symmetric`. -/
def is_symmetric (m : ExpandedMap) (edgeName : String) : Bool :=
  match m edgeName with
  | some d => d.is_symmetric
  | none => false

/-- Embeds `ConnectionsDatamodel.is_canonical`. -/
def is_canonical (m : ExpandedMap) (edgeName : String) : Bool :=
  match m edgeName with
  | some d => d.is_canonical
  | none => false

/-- Embeds `ConnectionsDatamodel.get_reverse_name` (lines 206-226): `none` for
symmetric or unknown edges, the stored reverse name for canonical edges, the
canonical name for reverse edges. -/
def get_reverse_name (m : ExpandedMap) (edgeName : String) : Option String :=
  match m edgeName with
  | none => none
  | some d =>
    if d.is_symmetric then none
    else if d.is_canonical then d.reverse_name
    else d.canonical_name

/-- Embeds `ConnectionsDatamodel.validate_connection` (lines 228-250). -/
def validate_connection (m : ExpandedMap) (sourceType targetType edgeName : String) :
    Bool :=
  match m edgeName with
  | none => false
  | some d => sourceType ∈ d.allowed_source && targetType ∈ d.allowed_target

/-- Embeds `ConnectionsDatamodel.get_allowed_sources`. -/
def get_allowed_sources (m : ExpandedMap) (edgeName : String) : List String :=
  match m edgeName with
  | some d => d.allowed_source
  | none => []

/-- Embeds `ConnectionsDatamodel.get_allowed_targets`. -/
def get_allowed_targets (m : ExpandedMap) (edgeName : String) : List String :=
  match m edgeName with
  | some d => d.allowed_target
  | none => []

/-- Embeds `ConnectionsDatamodel.edge_exists`. -/
def edge_exists (m : ExpandedMap) (edgeName : String) : Bool :=
  (m edgeName).isSome

/-- Embeds `ConnectionsDatamodel.normalize_edge_name` (lines 343-362). -/
def normalize_edge_name (m : ExpandedMap) (edgeName : String)
    (preferCanonical : Bool) : Option String :=
  match m edgeName with
  | none => none
  | some d =>
    if preferCanonical && !d.is_canonical then d.canonical_name
    else some edgeName

/-- The source of the datamodel JSON as `_load_datamodel` observes it:
the file may be missing (`FileNotFoundError`), unparseable
(`json.JSONDecodeError`), or parsed into an `edge_types` mapping. -/
inductive DatamodelSource where
  | missing : DatamodelSource
  | malformed : DatamodelSource
  | parsed : List (String × EdgeTypeEntry) → DatamodelSource

/-- The failure taxonomy named by the specification for datamodel loading. -/
inductive LoadError where
  | notFound : LoadError
  | parseError : LoadError
  | duplicateReverseName : LoadError
deriving Repr, DecidableEq

/-- Embeds `ConnectionsDatamodel._load_datamodel` (lines 57-113): raises on a
missing file or malformed JSON and otherwise performs the two-pass
expansion.  The source performs no duplicate-name check of any kind: a
synthesized reverse entry colliding with another entry silently overwrites
it in the `_expanded_edges` dict (or is overwritten by a later one). -/
def loadDatamodel : DatamodelSource → Except LoadError ExpandedMap
  | .missing => .error .notFound
  | .malformed => .error .parseError
  | .parsed edgeTypes => .ok (buildExpanded edgeTypes)

/-- Whether loading succeeded. -/
def loadSucceeds (s : DatamodelSource) : Bool :=
  match loadDatamodel s with
  | .ok _ => true
  | .error _ => false

/-- The dict keys of the `edge_types` JSON object (canonical edge names). -/
def canonicalNames (l : List (String × EdgeTypeEntry)) : List String :=
  l.map Prod.fst

/-- The names of the reverse entries the second pass will synthesize. -/
def reverseNames (l : List (String × EdgeTypeEntry)) : List String :=
  l.filterMap (fun p => p.2.reverse.map (fun r => r.name))

/-- A datamodel input is well formed when no two entries (canonical or
synthesized reverse) share a dict key.  Canonical keys are unique by
construction (JSON object keys); the other two conditions say the reverse
synthesis collides with nothing. -/
def WFDatamodel (l : List (String × EdgeTypeEntry)) : Prop :=
  (canonicalNames l).Nodup ∧ (reverseNames l).Nodup ∧
    ∀ r ∈ reverseNames l, r ∉ canonicalNames l

instance (l : List (String × EdgeTypeEntry)) : Decidable (WFDatamodel l) := by
  unfold WFDatamodel
  infer_instance

/-- The expansion loop starting from an arbitrary accumulator dict. -/
def buildExpandedFrom (m : ExpandedMap) (l : List (String × EdgeTypeEntry)) :
    ExpandedMap :=
  l.foldl expandStep m

theorem buildExpanded_eq_from (l : List (String × EdgeTypeEntry)) :
    buildExpanded l = buildExpandedFrom (fun _ => none) l := rfl

theorem buildExpandedFrom_untouched (m : ExpandedMap)
    (l : List (String × EdgeTypeEntry)) (k : String)
    (hc : k ∉ canonicalNames l) (hr : k ∉ reverseNames l) :
    buildExpandedFrom m l k = m k := by
  induction l generalizing m with
  | nil => rfl
  | cons hd t ih =>
    have hc' : k ∉ canonicalNames t := by
      intro h
      exact hc (by simp [canonicalNames] at h ⊢; right; exact h)
    have hr' : k ∉ reverseNames t := by
      intro h
      apply hr
      simp only [reverseNames, List.filterMap_cons] at h ⊢
      cases hrev : hd.2.reverse with
      | none => simpa [hrev] using h
      | some r => simp [hrev] at h ⊢; right; exact h
    have hk1 : k ≠ hd.1 := by
      intro h
      exact hc (by simp [canonicalNames, h])
    have step : expandStep m hd k = m k := by
      unfold expandStep
      cases hrev : hd.2.reverse with
      | none => simp [dictInsert, hk1]
      | some r =>
        have hkr : k ≠ r.name := by
          intro h
          apply hr
          simp [reverseNames, List.filterMap_cons, hrev, h]
        simp [dictInsert, hk1, hkr]
    calc buildExpandedFrom m (hd :: t) k
        = buildExpandedFrom (expandStep m hd) t k := rfl
      _ = expandStep m hd k := ih (expandStep m hd) hc' hr'
      _ = m k := step

theorem canonicalNames_cons (hd : String × EdgeTypeEntry)
    (t : List (String × EdgeTypeEntry)) :
    canonicalNames (hd :: t) = hd.1 :: canonicalNames t := by
  simp [canonicalNames]

theorem reverseNames_cons_none (hd : String × EdgeTypeEntry)
    (t : List (String × EdgeTypeEntry)) (hrev : hd.2.reverse = none) :
    reverseNames (hd :: t) = reverseNames t := by
  simp [reverseNames, List.filterMap_cons, hrev]

theorem reverseNames_cons_some (hd : String × EdgeTypeEntry)
    (t : List (String × EdgeTypeEntry)) (r : ReverseDef)
    (hrev : hd.2.reverse = some r) :
    reverseNames (hd :: t) = r.name :: reverseNames t := by
  simp [reverseNames, List.filterMap_cons, hrev]

theorem reverseNames_cons_sub (hd : String × EdgeTypeEntry)
    (t : List (String × EdgeTypeEntry)) (k : String)
    (h : k ∈ reverseNames t) : k ∈ reverseNames (hd :: t) := by
  cases hrev : hd.2.reverse with
  | none => rw [reverseNames_cons_none hd t hrev]; exact h
  | some r =>
    rw [reverseNames_cons_some hd t r hrev]
    exact List.mem_cons_of_mem _ h

theorem canonicalNames_cons_sub (hd : String × EdgeTypeEntry)
    (t : List (String × EdgeTypeEntry)) (k : String)
    (h : k ∈ canonicalNames t) : k ∈ canonicalNames (hd :: t) := by
  rw [canonicalNames_cons hd t]
  exact List.mem_cons_of_mem _ h

/-- After the expansion, the dict key of every canonical entry maps to its
canonical record (given a well-formed input). -/
theorem buildExpandedFrom_canonical (m : ExpandedMap)
    (l : List (String × EdgeTypeEntry)) (n : String) (e : EdgeTypeEntry)
    (hmem : (n, e) ∈ l)
    (hnodup : (canonicalNames l).Nodup)
    (hdisj : ∀ r ∈ reverseNames l, r ∉ canonicalNames l) :
    buildExpandedFrom m l n = some (canonicalRecord e) := by
  induction l generalizing m with
  | nil => cases hmem
  | cons hd t ih =>
    have hnodup' : (canonicalNames t).Nodup := by
      simpa [canonicalNames] using hnodup.of_cons
    have hdisj' : ∀ r ∈ reverseNames t, r ∉ canonicalNames t := by
      intro r hr hc
      exact hdisj r (reverseNames_cons_sub hd t r hr) (canonicalNames_cons_sub hd t r hc)
    rcases List.mem_cons.mp hmem with hhd | htl
    · obtain ⟨h1, h2⟩ : n = hd.1 ∧ e = hd.2 :=
        ⟨congrArg Prod.fst hhd, congrArg Prod.snd hhd⟩
      have hnt : n ∉ canonicalNames t := by
        rw [canonicalNames_cons hd t] at hnodup
        rw [h1]
        exact (List.nodup_cons.mp hnodup).1
      have hncan : n ∈ canonicalNames (hd :: t) := by
        rw [canonicalNames_cons hd t, h1]
        exact List.mem_cons_self _ _
      have hnr : n ∉ reverseNames t := by
        intro h
        exact hdisj n (reverseNames_cons_sub hd t n h) hncan
      have step : expandStep m hd n = some (canonicalRecord e) := by
        unfold expandStep
        cases hrev : hd.2.reverse with
        | none => simp [dictInsert, h1, h2]
        | some r =>
          have hnrname : n ≠ r.name := by
            intro h
            apply hdisj r.name
            · rw [reverseNames_cons_some hd t r hrev]
              exact List.mem_cons_self _ _
            · rw [← h]; exact hncan
          have hnrname2 : hd.1 ≠ r.name := by rw [← h1]; exact hnrname
          simp [dictInsert, hnrname, hnrname2, h1, h2]
      calc buildExpandedFrom m (hd :: t) n
          = buildExpandedFrom (expandStep m hd) t n := rfl
        _ = expandStep m hd n := buildExpandedFrom_untouched _ t n hnt hnr
        _ = some (canonicalRecord e) := step
    · exact ih (expandStep m hd) htl hnodup' hdisj'

/-- After the expansion, the reverse name of every non-symmetric canonical
entry maps to the synthesized reverse record (given a well-formed input). -/
theorem buildExpandedFrom_reverse (m : ExpandedMap)
    (l : List (String × EdgeTypeEntry)) (n : String) (e : EdgeTypeEntry)
    (r : ReverseDef) (hmem : (n, e) ∈ l) (hrev : e.reverse = some r)
    (hrnodup : (reverseNames l).Nodup)
    (hdisj : ∀ x ∈ reverseNames l, x ∉ canonicalNames l) :
    buildExpandedFrom m l r.name = some (reverseRecord n e r) := by
  induction l generalizing m with
  | nil => cases hmem
  | cons hd t ih =>
    have hrnodup' : (reverseNames t).Nodup := by
      cases hrevhd : hd.2.reverse with
      | none =>
        have : reverseNames (hd :: t) = reverseNames t := by
          simp [reverseNames, List.filterMap_cons, hrevhd]
        rwa [this] at hrnodup
      | some rr =>
        have : reverseNames (hd :: t) = rr.name :: reverseNames t := by
          simp [reverseNames, List.filterMap_cons, hrevhd]
        rw [this] at hrnodup
        exact hrnodup.of_cons
    have hdisj' : ∀ x ∈ reverseNames t, x ∉ canonicalNames t := by
      intro x hx hc
      exact hdisj x (reverseNames_cons_sub hd t x hx) (canonicalNames_cons_sub hd t x hc)
    rcases List.mem_cons.mp hmem with hhd | htl
    · have hne : n = hd.1 ∧ e = hd.2 := by
        constructor <;> simp [← hhd]
      obtain ⟨h1, h2⟩ := hne
      have hrevhd : hd.2.reverse = some r := by rw [← h2]; exact hrev
      have hrnames : reverseNames (hd :: t) = r.name :: reverseNames t := by
        simp [reverseNames, List.filterMap_cons, hrevhd]
      have hrc : r.name ∉ canonicalNames t := by
        intro h
        exact hdisj r.name (by rw [hrnames]; exact List.mem_cons_self _ _)
          (canonicalNames_cons_sub hd t r.name h)
      have hrr : r.name ∉ reverseNames t := by
        rw [hrnames] at hrnodup
        exact (List.nodup_cons.mp hrnodup).1
      have step : expandStep m hd r.name = some (reverseRecord n e r) := by
        unfold expandStep
        rw [hrevhd]
        simp [dictInsert, h1, h2]
      calc buildExpandedFrom m (hd :: t) r.name
          = buildExpandedFrom (expandStep m hd) t r.name := rfl
        _ = expandStep m hd r.name := buildExpandedFrom_untouched _ t r.name hrc hrr
        _ = some (reverseRecord n e r) := step
    · exact ih (expandStep m hd) htl hrnodup' hdisj'

/-- Every record in the expanded dict arises from some input entry, either
as its canonical record or as its synthesized reverse record. -/
theorem buildExpandedFrom_complete (m : ExpandedMap)
    (l : List (String × EdgeTypeEntry)) (k : String) (d : ExpandedDef)
    (h : buildExpandedFrom m l k = some d) :
    (∃ n e, (n, e) ∈ l ∧ k = n ∧ d = canonicalRecord e) ∨
    (∃ n e r, (n, e) ∈ l ∧ e.reverse = some r ∧ k = r.name ∧
      d = reverseRecord n e r) ∨
    m k = some d := by
  induction l generalizing m with
  | nil => exact Or.inr (Or.inr h)
  | cons hd t ih =>
    have h' : buildExpandedFrom (expandStep m hd) t k = some d := h
    rcases ih (expandStep m hd) h' with hcan | hrev | hbase
    · obtain ⟨n, e, hmem, hk, hd'⟩ := hcan
      exact Or.inl ⟨n, e, List.mem_cons_of_mem _ hmem, hk, hd'⟩
    · obtain ⟨n, e, r, hmem, hr, hk, hd'⟩ := hrev
      exact Or.inr (Or.inl ⟨n, e, r, List.mem_cons_of_mem _ hmem, hr, hk, hd'⟩)
    · unfold expandStep at hbase
      cases hrevhd : hd.2.reverse with
      | none =>
        rw [hrevhd] at hbase
        simp only [dictInsert] at hbase
        by_cases hk : k = hd.1
        · refine Or.inl ⟨hd.1, hd.2, List.mem_cons_self _ _, hk, ?_⟩
          simp [hk] at hbase
          exact hbase.symm
        · simp [hk] at hbase
          exact Or.inr (Or.inr hbase)
      | some r =>
        rw [hrevhd] at hbase
        simp only [dictInsert] at hbase
        by_cases hkr : k = r.name
        · refine Or.inr (Or.inl ⟨hd.1, hd.2, r, List.mem_cons_self _ _, hrevhd, hkr, ?_⟩)
          simp [hkr] at hbase
          exact hbase.symm
        · simp only [hkr, if_false] at hbase
          by_cases hk : k = hd.1
          · refine Or.inl ⟨hd.1, hd.2, List.mem_cons_self _ _, hk, ?_⟩
            simp [hk] at hbase
            exact hbase.symm
          · simp [hk] at hbase
            exact Or.inr (Or.inr hbase)

/-- A sample canonical entry with a reverse (mirrors the `is_after` /
`is_before` pair of scenario S1). -/
def isAfterEntry : EdgeTypeEntry :=
  { name := "is_after"
    label := "is after"
    description := "Chronological sequence"
    allowed_source := ["US"]
    allowed_target := ["US"]
    reverse := some { name := "is_before", label := "is before" } }

/-- A sample symmetric entry (no `reverse`). -/
def hasSameTimeEntry : EdgeTypeEntry :=
  { name := "has_same_time"
    label := "has same time"
    description := "Contemporaneity"
    allowed_source := ["US"]
    allowed_target := ["US"]
    reverse := none }

/-- A small well-formed datamodel input used by the witnesses. -/
def sampleEdgeTypes : List (String × EdgeTypeEntry) :=
  [("is_after", isAfterEntry), ("has_same_time", hasSameTimeEntry)]

/-- C4: in the expanded connections datamodel, for every non-symmetric edge
type `T`, `reverse_of(reverse_of(T)) = T`,
`allowed_sources(T) = allowed_targets(reverse_of(T))` and
`allowed_targets(T) = allowed_sources(reverse_of(T))`; and for every
symmetric edge type, `reverse_of` is `none`.  Stated for every datamodel
input whose canonical and synthesized reverse names do not collide
(`WFDatamodel`), which is the well-formedness the loader assumes. -/
theorem c4_reverse_involution (l : List (String × EdgeTypeEntry))
    (hwf : WFDatamodel l) (T : String) (d : ExpandedDef)
    (hT : buildExpanded l T = some d) :
    (d.is_symmetric = false →
      ∃ R, get_reverse_name (buildExpanded l) T = some R ∧
        get_reverse_name (buildExpanded l) R = some T ∧
        get_allowed_sources (buildExpanded l) T =
          get_allowed_targets (buildExpanded l) R ∧
        get_allowed_targets (buildExpanded l) T =
          get_allowed_sources (buildExpanded l) R) ∧
    (d.is_symmetric = true → get_reverse_name (buildExpanded l) T = none) := by
  obtain ⟨hnodup, hrnodup, hdisj⟩ := hwf
  rcases buildExpandedFrom_complete (fun _ => none) l T d hT with
    ⟨n, e, hmem, hk, hdval⟩ | ⟨n, e, r, hmem, hrev, hk, hdval⟩ | hbase
  · subst hk
    subst hdval
    constructor
    · intro hsym
      have hrevsome : ∃ r, e.reverse = some r := by
        cases hcase : e.reverse with
        | none => rw [canonicalRecord] at hsym; simp [hcase] at hsym
        | some r => exact ⟨r, rfl⟩
      obtain ⟨r, hreveq⟩ := hrevsome
      have hrevm : buildExpanded l r.name = some (reverseRecord T e r) :=
        buildExpandedFrom_reverse (fun _ => none) l T e r hmem hreveq hrnodup hdisj
      refine ⟨r.name, ?_, ?_, ?_, ?_⟩
      · simp [get_reverse_name, hT, canonicalRecord, hreveq]
      · simp [get_reverse_name, hrevm, reverseRecord]
      · simp [get_allowed_sources, get_allowed_targets, hT, hrevm,
          canonicalRecord, reverseRecord]
      · simp [get_allowed_targets, get_allowed_sources, hT, hrevm,
          canonicalRecord, reverseRecord]
    · intro hsym
      simp [get_reverse_name, hT, hsym]
  · subst hk
    subst hdval
    have hcanm : buildExpanded l n = some (canonicalRecord e) :=
      buildExpandedFrom_canonical (fun _ => none) l n e hmem hnodup hdisj
    constructor
    · intro _
      refine ⟨n, ?_, ?_, ?_, ?_⟩
      · simp [get_reverse_name, hT, reverseRecord]
      · simp [get_reverse_name, hcanm, canonicalRecord, hrev]
      · simp [get_allowed_sources, get_allowed_targets, hT, hcanm,
          canonicalRecord, reverseRecord]
      · simp [get_allowed_targets, get_allowed_sources, hT, hcanm,
          canonicalRecord, reverseRecord]
    · intro hsym
      simp [reverseRecord] at hsym
  · cases hbase

/-- Witness for C4: the sample datamodel is well formed, `is_after` round
trips through `is_before` with swapped allowed lists, and the symmetric
`has_same_time` has no reverse. -/
theorem c4_witness :
    WFDatamodel sampleEdgeTypes ∧
    (canonicalRecord isAfterEntry).is_symmetric = false ∧
    (canonicalRecord hasSameTimeEntry).is_symmetric = true ∧
    (∃ R, get_reverse_name (buildExpanded sampleEdgeTypes) "is_after" = some R ∧
      get_reverse_name (buildExpanded sampleEdgeTypes) R = some "is_after" ∧
      get_allowed_sources (buildExpanded sampleEdgeTypes) "is_after" =
        get_allowed_targets (buildExpanded sampleEdgeTypes) R ∧
      get_allowed_targets (buildExpanded sampleEdgeTypes) "is_after" =
        get_allowed_sources (buildExpanded sampleEdgeTypes) R) ∧
    get_reverse_name (buildExpanded sampleEdgeTypes) "has_same_time" = none :=
  ⟨by decide, by decide, by decide,
   (c4_reverse_involution sampleEdgeTypes (by decide) "is_after"
      (canonicalRecord isAfterEntry) (by decide)).1 (by decide),
   (c4_reverse_involution sampleEdgeTypes (by decide) "has_same_time"
      (canonicalRecord hasSameTimeEntry) (by decide)).2 (by decide)⟩

/-- A datamodel input on which synthesizing the reverse of `is_after`
(named `is_before`) collides with the canonical entry `is_before`, and vice
versa. -/
def collisionEdgeTypes : List (String × EdgeTypeEntry) :=
  [("is_after", isAfterEntry),
   ("is_before",
    { name := "is_before"
      label := "is before"
      description := ""
      allowed_source := ["US"]
      allowed_target := ["US"]
      reverse := some { name := "is_after", label := "is after" } })]

/-- C6 counterexample: on an input where the synthesized reverse name
`is_before` collides with the canonical entry `is_before`, loading
nevertheless succeeds — `_load_datamodel` performs no duplicate-reverse-name
check, the colliding dict entries silently overwrite each other.  This
falsifies the claim that loading fails with a duplicate-reverse-name error
in this situation. -/
theorem c6_counterexample :
    loadSucceeds (DatamodelSource.parsed collisionEdgeTypes) = true ∧
    "is_before" ∈ reverseNames collisionEdgeTypes ∧
    "is_before" ∈ canonicalNames collisionEdgeTypes := by
  decide

/-- C6 (amended): loading fails with not-found when the JSON path does not
exist and with a parse error on malformed JSON, but a reverse-name collision
with a canonical entry is not detected: loading succeeds on every parsed
input, the colliding entries silently overwriting one another in the
expanded dict. -/
theorem c6_load_failure_modes :
    loadDatamodel DatamodelSource.missing = Except.error LoadError.notFound ∧
    loadDatamodel DatamodelSource.malformed = Except.error LoadError.parseError ∧
    (∀ ets, loadSucceeds (DatamodelSource.parsed ets) = true) :=
  ⟨rfl, rfl, fun _ => rfl⟩

/-- C10: every datamodel query is total over arbitrary edge names — for a
name absent from the expanded dict, `get_label` returns the queried name,
`get_description` the empty string, `is_symmetric` and `is_canonical`
`false`, `get_reverse_name` and `normalize_edge_name` `none`,
`validate_connection` `false` for every kind pair, and the allowed lists are
empty; none of these operations raises (each is a total function). -/
theorem c10_unknown_edge_total (m : ExpandedMap) (name : String)
    (h : m name = none) :
    get_label m name = name ∧
    get_description m name = "" ∧
    is_symmetric m name = false ∧
    is_canonical m name = false ∧
    get_reverse_name m name = none ∧
    (∀ b, normalize_edge_name m name b = none) ∧
    (∀ s t, validate_connection m s t name = false) ∧
    get_allowed_sources m name = [] ∧
    get_allowed_targets m name = [] := by
  refine ⟨?_, ?_, ?_, ?_, ?_, ?_, ?_, ?_, ?_⟩ <;>
    simp [get_label, get_description, is_symmetric, is_canonical,
      get_reverse_name, normalize_edge_name, validate_connection,
      get_allowed_sources, get_allowed_targets, h]

/-- Witness for C10: the name `no_such_edge` is absent from the sample
expanded datamodel and all queries return their defaults on it. -/
theorem c10_witness :
    buildExpanded sampleEdgeTypes "no_such_edge" = none ∧
    (get_label (buildExpanded sampleEdgeTypes) "no_such_edge" = "no_such_edge" ∧
     get_description (buildExpanded sampleEdgeTypes) "no_such_edge" = "" ∧
     is_symmetric (buildExpanded sampleEdgeTypes) "no_such_edge" = false ∧
     is_canonical (buildExpanded sampleEdgeTypes) "no_such_edge" = false ∧
     get_reverse_name (buildExpanded sampleEdgeTypes) "no_such_edge" = none ∧
     (∀ b, normalize_edge_name (buildExpanded sampleEdgeTypes) "no_such_edge" b = none) ∧
     (∀ s t, validate_connection (buildExpanded sampleEdgeTypes) s t "no_such_edge" = false) ∧
     get_allowed_sources (buildExpanded sampleEdgeTypes) "no_such_edge" = [] ∧
     get_allowed_targets (buildExpanded sampleEdgeTypes) "no_such_edge" = []) :=
  ⟨by decide,
   c10_unknown_edge_total (buildExpanded sampleEdgeTypes) "no_such_edge" (by decide)⟩

/-! ## Naming utilities (utils/utils.py) -/

/-- Python's blank test used by `manage_id_prefix`
(`not name or name.strip() == ''`): the empty string and all-whitespace
strings are blank. -/
def strBlank (s : String) : Bool :=
  s.data.all (fun c => c.isWhitespace)

/-- The characters after the first occurrence of `sep`: the second component
of Python's `name.split(separator, 1)` when the separator occurs.  The
separator is specialized to a single character; the library always passes
the one-character default `'.'`. -/
def afterFirst (sep : Char) : List Char → List Char
  | [] => []
  | c :: cs => if c = sep then cs else afterFirst sep cs

/-- The two actions `manage_id_prefix` accepts; any other string raises a
`ValueError` in the source, so the embedding restricts the argument to the
two valid actions. -/
inductive IdAction where
  | add : IdAction
  | remove : IdAction
deriving Repr, DecidableEq

/-- The `remove` path of `manage_id_prefix` (lines 284-295 of
utils/utils.py), also invoked recursively by the `add` path to compute
`base_name`: blank names are returned unchanged; otherwise everything up to
and including the first separator is stripped when the separator occurs. -/
def stripFirst (sep : Char) (name : String) : String :=
  if strBlank name then name
  else if sep ∈ name.data then String.mk (afterFirst sep name.data)
  else name

/-- Embeds `manage_id_prefix` from utils/utils.py (lines 234-314).  `graph_code`
is `Option String` (Python `None` or a string); the Python falsy/blank test
on it is `strBlank`.  String formatting `f"{graph_code}{separator}{base}"`
is character-list concatenation. -/
def manage_id_prefix (name : String) (graph_code : Option String)
    (action : IdAction) (sep : Char) : String :=
  if strBlank name then name
  else
    match action with
    | .remove =>
      if sep ∈ name.data then String.mk (afterFirst sep name.data) else name
    | .add =>
      match graph_code with
      | none => name
      | some c =>
        if strBlank c then name
        else if sep ∈ name.data then
          String.mk (c.data ++ sep :: (stripFirst sep name).data)
        else
          String.mk (c.data ++ sep :: name.data)

/-- Embeds `get_base_name` from utils/utils.py (lines 317-337): remove with no
graph code. -/
def get_base_name (name : String) (sep : Char) : String :=
  manage_id_prefix name none IdAction.remove sep

theorem manage_remove_eq_strip (name : String) (code : Option String) (sep : Char) :
    manage_id_prefix name code IdAction.remove sep = stripFirst sep name := by
  unfold manage_id_prefix stripFirst
  by_cases h : strBlank name <;> simp [h]

theorem afterFirst_append (sep : Char) (l1 l2 : List Char) (h : sep ∉ l1) :
    afterFirst sep (l1 ++ sep :: l2) = l2 := by
  induction l1 with
  | nil => simp [afterFirst]
  | cons c cs ih =>
    have hc : c ≠ sep := fun hEq => h (hEq ▸ List.mem_cons_self c cs)
    have hcs : sep ∉ cs := fun hm => h (List.mem_cons_of_mem c hm)
    simp only [List.cons_append, afterFirst, hc, if_false]
    exact ih hcs

theorem strBlank_sep_append (l1 l2 : List Char) :
    strBlank (String.mk (l1 ++ '.' :: l2)) = false := by
  unfold strBlank
  simp only [List.all_append, List.all_cons]
  have hdot : ('.' : Char).isWhitespace = false := by decide
  simp [hdot]

theorem stripFirst_code_append (c : String) (l : List Char)
    (hc : '.' ∉ c.data) :
    stripFirst '.' (String.mk (c.data ++ '.' :: l)) = String.mk l := by
  have h1 : ¬ (strBlank (String.mk (c.data ++ '.' :: l)) = true) := by
    rw [strBlank_sep_append]
    exact Bool.false_ne_true
  have h2 : '.' ∈ (String.mk (c.data ++ '.' :: l)).data := by
    show '.' ∈ c.data ++ '.' :: l
    exact List.mem_append_right _ (List.mem_cons_self _ _)
  unfold stripFirst
  rw [if_neg h1, if_pos h2]
  show String.mk (afterFirst '.' (c.data ++ '.' :: l)) = String.mk l
  rw [afterFirst_append '.' c.data l hc]

/-- C7 counterexample: with the graph code "X.Y", which itself contains the
separator, adding then removing yields "Y.US001" while `get_base_name`
yields "US001" — the round-trip equation of the claim fails, so it does not
hold for every graph code. -/
theorem c7_counterexample :
    manage_id_prefix ( manage_id_prefix "US001" (some "X.Y") IdAction.add '.')
        none IdAction.remove '.' = "Y.US001" ∧
    get_base_name "US001" '.' = "US001" ∧
    ¬ ( manage_id_prefix ( manage_id_prefix "US001" (some "X.Y") IdAction.add '.')
        none IdAction.remove '.' = get_base_name "US001" '.') := by
  refine ⟨?_, ?_, ?_⟩ <;> decide

/-- C7 (amended): for every name and every graph code not containing the
separator (the code may also be absent), removing a prefix after adding one
returns the base name: `manage_id_prefix (manage_id_prefix name c add) _
remove = get_base_name name`. -/
theorem c7_add_remove_roundtrip (name : String) (code : Option String)
    (hcode : ∀ c, code = some c → '.' ∉ c.data) :
    manage_id_prefix ( manage_id_prefix name code IdAction.add '.') none
      IdAction.remove '.' = get_base_name name '.' := by
  rw [get_base_name, manage_remove_eq_strip, manage_remove_eq_strip]
  by_cases hb : strBlank name = true
  · have hadd : manage_id_prefix name code IdAction.add '.' = name := by
      unfold manage_id_prefix
      simp [hb]
    rw [hadd]
  · cases code with
    | none =>
      have hadd : manage_id_prefix name none IdAction.add '.' = name := by
        unfold manage_id_prefix
        simp [hb]
      rw [hadd]
    | some c =>
      have hcnotin : '.' ∉ c.data := hcode c rfl
      by_cases hcb : strBlank c = true
      · have hadd : manage_id_prefix name (some c) IdAction.add '.' = name := by
          unfold manage_id_prefix
          simp [hb, hcb]
        rw [hadd]
      · by_cases hmem : '.' ∈ name.data
        · have hadd : manage_id_prefix name (some c) IdAction.add '.' =
              String.mk (c.data ++ '.' :: (stripFirst '.' name).data) := by
            unfold manage_id_prefix
            simp [hb, hcb, hmem]
          rw [hadd, stripFirst_code_append c _ hcnotin]
        · have hadd : manage_id_prefix name (some c) IdAction.add '.' =
              String.mk (c.data ++ '.' :: name.data) := by
            unfold manage_id_prefix
            simp [hb, hcb, hmem]
          rw [hadd, stripFirst_code_append c _ hcnotin]
          unfold stripFirst
          rw [if_neg hb, if_neg hmem]

/-- Witness for C7 (amended): a name already carrying the prefix `VDL16.`
round trips through the separator-free graph code `GT15` back to its base
name. -/
theorem c7_witness :
    manage_id_prefix ( manage_id_prefix "VDL16.US001" (some "GT15") IdAction.add '.')
      none IdAction.remove '.' = get_base_name "VDL16.US001" '.' :=
  c7_add_remove_roundtrip "VDL16.US001" (some "GT15")
    (fun c hc => by cases hc; decide)

/-- Embeds `convert_shape2type` from utils/utils.py (lines 91-124): the if-chain
mapping a yEd shape and border color to a stratigraphic code and an
extended description (the diagnostic print of the fallback branch is
ignored). -/
def convert_shape2type (yedtype border_style : String) : String × String :=
  if yedtype = "rectangle" then ("US", "Stratigraphic Unit")
  else if yedtype = "parallelogram" then
    ("USVs", "Structural Virtual Stratigraphic Units")
  else if yedtype = "ellipse" ∧ border_style = "#31792D" then
    ("serUSVn", "Series of USVn")
  else if yedtype = "ellipse" ∧ border_style = "#248FE7" then
    ("serUSVs", "Series of USVs")
  else if yedtype = "ellipse" ∧ border_style = "#9B3333" then
    ("serSU", "Series of SU")
  else if yedtype = "hexagon" then
    ("USVn", "Non-Structural Virtual Stratigraphic Units")
  else if yedtype = "octagon" ∧ border_style = "#D8BD30" then
    ("SF", "Special Find")
  else if yedtype = "octagon" ∧ border_style = "#B19F61" then
    ("VSF", "Virtual Special Find")
  else if yedtype = "roundrectangle" then
    ("USD", "Documentary Stratigraphic Unit")
  else ("unknown", "Unrecognized node")

/-- C8: `convert_shape2type` implements the shape/border-color table
exactly — rectangle to US, parallelogram to USVs, hexagon to USVn, ellipse
with border #31792D/#248FE7/#9B3333 to serUSVn/serUSVs/serSU, octagon with
border #D8BD30 to SF, octagon with border #B19F61 to VSF, roundrectangle to
USD, and every other combination to the code "unknown". -/
theorem c8_shape_table :
    (∀ b, (convert_shape2type "rectangle" b).1 = "US") ∧
    (∀ b, (convert_shape2type "parallelogram" b).1 = "USVs") ∧
    (∀ b, (convert_shape2type "hexagon" b).1 = "USVn") ∧
    (convert_shape2type "ellipse" "#31792D").1 = "serUSVn" ∧
    (convert_shape2type "ellipse" "#248FE7").1 = "serUSVs" ∧
    (convert_shape2type "ellipse" "#9B3333").1 = "serSU" ∧
    (convert_shape2type "octagon" "#D8BD30").1 = "SF" ∧
    (convert_shape2type "octagon" "#B19F61").1 = "VSF" ∧
    (∀ b, (convert_shape2type "roundrectangle" b).1 = "USD") ∧
    (∀ s b, s ≠ "rectangle" → s ≠ "parallelogram" → s ≠ "hexagon" →
      s ≠ "roundrectangle" →
      ¬(s = "ellipse" ∧ (b = "#31792D" ∨ b = "#248FE7" ∨ b = "#9B3333")) →
      ¬(s = "octagon" ∧ (b = "#D8BD30" ∨ b = "#B19F61")) →
      convert_shape2type s b = ("unknown", "Unrecognized node")) := by
  refine ⟨fun b => rfl, fun b => rfl, fun b => rfl, rfl, rfl, rfl, rfl, rfl,
    fun b => rfl, ?_⟩
  intro s b h1 h2 h3 h4 h5 h6
  unfold convert_shape2type
  split_ifs <;> first | rfl | tauto

/-- Witness for C8: an unlisted shape/color combination falls through to
the "unknown" code. -/
theorem c8_witness :
    convert_shape2type "trapezoid" "#000000" = ("unknown", "Unrecognized node") :=
  c8_shape_table.2.2.2.2.2.2.2.2.2 "trapezoid" "#000000" (by decide)
    (by decide) (by decide) (by decide) (by decide) (by decide)

/-! ## Tabular importer row processing (importer/base_importer.py,
importer/mapped_xlsx_importer.py) -/

/-- A stratigraphic node as the tabular importer sees it: identifier, name,
and the optional `original_name` attribute consulted by
`BaseImporter._find_node_by_name`. -/
structure SNode where
  node_id : String
  name : String
  original_name : Option String
deriving Repr, DecidableEq

/-- Modelled from the spec: the graph engine (`graph.py`) is not among the
provided sources; per spec section 4.2 `add_node` appends the node to the
graph's internal node sequence.  (The duplicate-id failure of section 4.2
cannot trigger in the runs modelled here: every inserted identifier is
freshly minted.) -/
structure TabGraph where
  nodes : List SNode
deriving Repr, DecidableEq

/-- Embeds `BaseImporter._find_node_by_name` (lines 425-435): linear scan matching
either the node name or its `original_name` attribute. -/
def importerFindNodeByName (g : TabGraph) (target : String) : Option SNode :=
  g.nodes.find? (fun n => n.name == target || n.original_name == some target)

/-- The importer state threaded through row processing: the graph being
populated, the accumulated warnings, and the supply counter for freshly
minted identifiers (`uuid.uuid4()` in the source). -/
structure ImportState where
  graph : TabGraph
  warnings : List String
  fresh : Nat
deriving Repr, DecidableEq

/-- A deterministic stand-in for `str(uuid.uuid4())`; only freshness
matters to the properties studied here. -/
def freshNodeId (k : Nat) : String :=
  "uuid-" ++ toString k

/-- Embeds `BaseImporter._process_row_mapped` (lines 205-259), specialized to a
mapping document whose only entry is the ID column, so that
`_process_properties` creates nothing.  The row's already-cleaned ID value
is `rowId`.  Note the source detects enrichment mode as
`len(self.graph.nodes) > 0` (line 223), not from whether an
`existing_graph` was passed to `MappedXLSXImporter.__init__` (the
`_use_existing_graph` flag set there is never consulted). -/
def process_row_mapped (st : ImportState) (rowId : String) : ImportState :=
  if rowId = "" then
    { st with warnings := st.warnings ++ ["Row skipped: invalid ID value"] }
  else
    match importerFindNodeByName st.graph rowId with
    | some _ => st
    | none =>
      if 0 < st.graph.nodes.length then
        { st with warnings := st.warnings ++
            ["Node '" ++ rowId ++ "' not found in existing graph - SKIPPED"] }
      else
        { st with
            graph := ⟨st.graph.nodes ++ [⟨freshNodeId st.fresh, rowId, none⟩]⟩
            fresh := st.fresh + 1 }

/-- The row loop of `MappedXLSXImporter.parse` (lines 244-277), calling
`process_row` on each row dictionary in sheet order. -/
def processRows (st : ImportState) (rows : List String) : ImportState :=
  rows.foldl process_row_mapped st

/-- C1: the claim states that on a fresh graph (no `existing_graph`) the
spreadsheet with IDs US001, US002, US999 creates three new stratigraphic
units, skipping unmatched rows only in enrichment mode.  The code disagrees:
because enrichment mode is detected as `len(self.graph.nodes) > 0`, the
first created node flips every subsequent row into enrichment mode, so the
fresh-graph run creates only US001 and skips US002 and US999 with
"not found in existing graph" warnings.  (The enrichment half of the claim
does hold: with an existing graph containing US001, only US001 is matched
and the other rows are skipped.) -/
theorem c1_fresh_graph_run :
    (processRows ⟨⟨[]⟩, [], 0⟩ ["US001", "US002", "US999"]).graph.nodes.map
        (fun n => n.name) = ["US001"] ∧
    (processRows ⟨⟨[]⟩, [], 0⟩ ["US001", "US002", "US999"]).warnings =
      ["Node 'US002' not found in existing graph - SKIPPED",
       "Node 'US999' not found in existing graph - SKIPPED"] ∧
    (processRows ⟨⟨[⟨"n1", "US001", none⟩]⟩, [], 0⟩
        ["US001", "US002", "US999"]).graph.nodes.map (fun n => n.name) =
      ["US001"] ∧
    (processRows ⟨⟨[⟨"n1", "US001", none⟩]⟩, [], 0⟩
        ["US001", "US002", "US999"]).warnings =
      ["Node 'US002' not found in existing graph - SKIPPED",
       "Node 'US999' not found in existing graph - SKIPPED"] := by
  decide

/-! ## GraphML identifier adoption and slipback (importer/import_graphml.py)

The fragment of the GraphML importer that decides identifier stability:
the dynamic key mapping, EMID extraction, identifier adoption, and the
slipback of adopted identifiers into the file.  Node elements are reduced
to their raw id and their `<data>` children (key id, text); `uuid.uuid4()`
is modelled as an injective supply of fresh strings, a different supply for
each run. -/

/-- The `for` attribute of a GraphML `<key>` declaration. -/
inductive KeyScope where
  | node : KeyScope
  | edge : KeyScope
deriving Repr, DecidableEq

/-- A GraphML `<key>` declaration: id, `attr.name`, scope. -/
structure GKey where
  keyId : String
  attrName : String
  scope : KeyScope
deriving Repr, DecidableEq

/-- A GraphML `<node>` element: raw id and `<data>` children as
(key id, stripped text) pairs. -/
structure GNodeElem where
  rawId : String
  data : List (String × String)
deriving Repr, DecidableEq

/-- A GraphML file reduced to what the identifier machinery reads. -/
structure GFile where
  keys : List GKey
  nodes : List GNodeElem
deriving Repr, DecidableEq

/-- Embeds `GraphMLImporter.build_key_mapping` (lines 44-77), node scope: walk the
`<key>` declarations, mapping `attr.name` to the key id, later declarations
overwriting earlier ones (Python dict assignment). -/
def buildNodeKeyMap (f : GFile) : String → Option String :=
  f.keys.foldl
    (fun m k =>
      match k.scope with
      | .node => fun x => if x = k.attrName then some k.keyId else m x
      | .edge => m)
    (fun _ => none)

/-- Embeds `GraphMLImporter.extract_custom_fields` for EMID (lines 94-98): resolve
the EMID key id through the dynamic key map, then read the first matching
`<data>` child; missing or empty text counts as absent. -/
def extractEMID (km : String → Option String) (n : GNodeElem) : Option String :=
  match km "EMID" with
  | none => none
  | some k =>
    match n.data.find? (fun p => p.1 == k) with
    | none => none
    | some p => if p.2 = "" then none else some p.2

/-- The identifier-adoption step of `process_node_element` (lines 549-573):
already-mapped raw ids are skipped; an EMID, when present and non-empty, is
adopted as the node identifier, otherwise a fresh one is minted. -/
def adoptStep (km : String → Option String) (fresh : Nat → String)
    (st : List (String × String) × Nat) (n : GNodeElem) :
    List (String × String) × Nat :=
  if (st.1.lookup n.rawId).isSome then st
  else
    match extractEMID km n with
    | some e => (st.1 ++ [(n.rawId, e)], st.2)
    | none => (st.1 ++ [(n.rawId, fresh st.2)], st.2 + 1)

/-- The node pass restricted to identifier adoption: the resulting
`id_mapping` from raw ids to adopted identifiers. -/
def parseIds (km : String → Option String) (fresh : Nat → String)
    (nodes : List GNodeElem) : List (String × String) :=
  (nodes.foldl (adoptStep km fresh) ([], 0)).1

/-- Parse `d<N>` key ids, as `_ensure_custom_keys` does to find the next
free id (lines 294-304). -/
def keyNum (s : String) : Option Nat :=
  if s.startsWith "d" then (s.drop 1).toNat? else none

/-- The largest numeric `d<N>` among the existing key declarations. -/
def maxKeyNum (keys : List GKey) : Nat :=
  keys.foldl
    (fun acc k =>
      match keyNum k.keyId with
      | some n => max acc n
      | none => acc)
    0

/-- Whether any `<key>` declaration (either scope) carries the attribute
name, as `existing_keys` is collected in `_ensure_custom_keys`. -/
def hasAttrKey (keys : List GKey) (a : String) : Bool :=
  keys.any (fun k => k.attrName == a)

/-- Embeds `_ensure_custom_keys` (lines 283-356): append EMID node/edge key
declarations with the next free `d<N>` ids when no EMID key exists, then
likewise for URI.  (The source inserts them before the `<graph>` element;
the position is irrelevant to the key map.)  Crucially, this mutates only
the XML tree: `self.key_map` is not rebuilt. -/
def ensureCustomKeys (keys : List GKey) : List GKey :=
  let m0 := maxKeyNum keys
  let step1 :=
    if hasAttrKey keys "EMID" then (keys, m0)
    else
      (keys ++
        [⟨"d" ++ toString (m0 + 1), "EMID", KeyScope.node⟩,
         ⟨"d" ++ toString (m0 + 2), "EMID", KeyScope.edge⟩],
       m0 + 2)
  if hasAttrKey keys "URI" then step1.1
  else
    step1.1 ++
      [⟨"d" ++ toString (step1.2 + 1), "URI", KeyScope.node⟩,
       ⟨"d" ++ toString (step1.2 + 2), "URI", KeyScope.edge⟩]

/-- Set the text of the first `<data>` child with the given key. -/
def setFirstData (k v : String) : List (String × String) → List (String × String)
  | [] => []
  | p :: ps => if p.1 == k then (p.1, v) :: ps else p :: setFirstData k v ps

/-- Embeds `_update_node_custom_fields` (lines 358-389) restricted to EMID (the
nodes in the runs studied here carry no URI attribute): the EMID key id is
taken from `self.key_map` — the map built from the ORIGINAL file, not
refreshed after `_ensure_custom_keys` — and when it is absent nothing is
written. -/
def updateNodeEMID (kmOld : String → Option String) (adopted : String)
    (n : GNodeElem) : GNodeElem :=
  match kmOld "EMID" with
  | none => n
  | some k =>
    match n.data.find? (fun p => p.1 == k) with
    | some _ => ⟨n.rawId, setFirstData k adopted n.data⟩
    | none => ⟨n.rawId, (k, adopted) :: n.data⟩

/-- Embeds `slipback_uuids_to_graphml` (lines 227-281) for nodes: ensure the
custom keys exist, then write each mapped node's adopted identifier through
`_update_node_custom_fields` using the stale `self.key_map`. -/
def slipback (f : GFile) (kmOld : String → Option String)
    (idMap : List (String × String)) : GFile :=
  { keys := ensureCustomKeys f.keys
    nodes := f.nodes.map (fun n =>
      match idMap.lookup n.rawId with
      | some adopted => updateNodeEMID kmOld adopted n
      | none => n) }

/-- One `parse` run (lines 160-225) restricted to identifiers: build the
dynamic key map, adopt identifiers, slip them back into the file.  Returns
the adopted `id_mapping` and the rewritten file. -/
def runImport (fresh : Nat → String) (f : GFile) :
    List (String × String) × GFile :=
  let km := buildNodeKeyMap f
  let idMap := parseIds km fresh f.nodes
  (idMap, slipback f km idMap)

/-- The file of the failing input: no `<key>` declarations at all (in
particular no EMID/URI keys) and a single node `n1` without data. -/
def c2File : GFile := ⟨[], [⟨"n1", []⟩]⟩

/-- Fresh-identifier supply of the first run. -/
def freshU (k : Nat) : String := "u" ++ toString k

/-- Fresh-identifier supply of the second run. -/
def freshV (k : Nat) : String := "v" ++ toString k

/-- C2: the claim states that re-running the parser on a slipped-back file
adopts the same identifier for every node, in particular for input files
declaring no EMID/URI keys.  The code disagrees on exactly that case:
`_ensure_custom_keys` adds the EMID key declarations to the tree, but
`_update_node_custom_fields` looks the EMID key id up in the stale
`self.key_map` built from the original file, finds none, and writes no EMID
data.  The slipped-back file therefore declares an EMID key (`d1`) with no
data element under any node, and a second run mints fresh identifiers
(`v0`) instead of re-adopting the first run's (`u0`). -/
theorem c2_slipback_instability :
    ((runImport freshU c2File).1).lookup "n1" = some "u0" ∧
    hasAttrKey (runImport freshU c2File).2.keys "EMID" = true ∧
    buildNodeKeyMap (runImport freshU c2File).2 "EMID" = some "d1" ∧
    (runImport freshU c2File).2.nodes = [⟨"n1", []⟩] ∧
    ((runImport freshV (runImport freshU c2File).2).1).lookup "n1" = some "v0" := by
  decide

/-! ## GraphML document deduplication (importer/import_graphml.py) -/

/-- A `<node>` element classified as Document by `EM_check_node_document`:
its raw id, its extracted name, and its EMID custom field (already filtered
to non-empty by `extract_custom_fields`; `some ""` is treated as absent as
in the source's truthiness test). -/
structure DocElem where
  rawId : String
  name : String
  emid : Option String
deriving Repr, DecidableEq

/-- A `DocumentNode` added to the graph, with the `original_id` attribute
set at creation (line 646). -/
structure DocRecord where
  node_id : String
  name : String
  original_id : String
deriving Repr, DecidableEq

/-- The importer state relevant to document deduplication:
`id_mapping` (raw id to adopted id), `document_nodes_map` (document name to
node id), `duplicate_id_map` (raw id to the kept document's raw id), the
`DocumentNode`s added to the graph (modelled from the spec: `graph.py` is
not among the provided sources; per spec section 4.2 `add_node` appends to
the node sequence), and the fresh-identifier counter. -/
structure DocState where
  idMapping : List (String × String)
  docMap : List (String × String)
  dupMap : List (String × String)
  docs : List DocRecord
  fresh : Nat
deriving Repr, DecidableEq

/-- The initial importer state. -/
def emptyDocState : DocState := ⟨[], [], [], [], 0⟩

/-- Embeds `process_node_element` (lines 541-658) specialized to
Document-classified elements: skip already-mapped raw ids; adopt the EMID
or mint a fresh identifier and record it in `id_mapping`; then either map
the raw id of a duplicate-named document onto the kept document's
`original_id` in `duplicate_id_map` (falling back to its node id when the
kept document cannot be found), or create the `DocumentNode` and register
its name in `document_nodes_map`.  (The `LinkNode` creation for non-"Empty"
URLs does not touch any of the studied state and is omitted.) -/
def processDocElem (fresh : Nat → String) (st : DocState) (e : DocElem) :
    DocState :=
  if (st.idMapping.lookup e.rawId).isSome then st
  else
    let minted :=
      match e.emid with
      | some s => if s = "" then (fresh st.fresh, st.fresh + 1) else (s, st.fresh)
      | none => (fresh st.fresh, st.fresh + 1)
    let adopted := minted.1
    let idMapping2 := st.idMapping ++ [(e.rawId, adopted)]
    match st.docMap.lookup e.name with
    | some existingUuid =>
      let target :=
        match st.docs.find? (fun d => d.node_id == existingUuid) with
        | some d => d.original_id
        | none => existingUuid
      { st with
          idMapping := idMapping2
          fresh := minted.2
          dupMap := st.dupMap ++ [(e.rawId, target)] }
    | none =>
      { st with
          idMapping := idMapping2
          fresh := minted.2
          docs := st.docs ++ [⟨adopted, e.name, e.rawId⟩]
          docMap := st.docMap ++ [(e.name, adopted)] }

/-- The document portion of `parse_nodes`: elements in file order. -/
def processDocs (fresh : Nat → String) (elems : List DocElem) : DocState :=
  elems.foldl (processDocElem fresh) emptyDocState

/-- The endpoint remapping of `parse_edges` (lines 461-498): a raw endpoint
is first redirected through `duplicate_id_map`, then resolved through
`id_mapping` to the adopted identifier. -/
def resolveEndpoint (st : DocState) (raw : String) : Option String :=
  let raw2 := (st.dupMap.lookup raw).getD raw
  st.idMapping.lookup raw2

theorem lookup_append_some {α β : Type} [BEq α] (l1 l2 : List (α × β))
    (k : α) (v : β) (h : l1.lookup k = some v) :
    (l1 ++ l2).lookup k = some v := by
  induction l1 with
  | nil => cases h
  | cons p t ih =>
    rw [List.cons_append]
    cases hpk : k == p.1 with
    | true =>
      simp only [List.lookup, hpk] at h ⊢
      exact h
    | false =>
      simp only [List.lookup, hpk] at h ⊢
      exact ih h

theorem lookup_append_none {α β : Type} [BEq α] (l1 l2 : List (α × β))
    (k : α) (h : l1.lookup k = none) :
    (l1 ++ l2).lookup k = l2.lookup k := by
  induction l1 with
  | nil => rfl
  | cons p t ih =>
    rw [List.cons_append]
    cases hpk : k == p.1 with
    | true =>
      simp only [List.lookup, hpk] at h
      cases h
    | false =>
      simp only [List.lookup, hpk] at h ⊢
      exact ih h

/-- The dedup invariant: every created document's name is registered in
`document_nodes_map`, and the created documents' names are distinct. -/
def DocInv (st : DocState) : Prop :=
  (∀ d ∈ st.docs, (st.docMap.lookup d.name).isSome = true) ∧
    (st.docs.map (fun d => d.name)).Nodup

theorem processDocElem_inv (fresh : Nat → String) (st : DocState)
    (e : DocElem) (h : DocInv st) : DocInv (processDocElem fresh st e) := by
  obtain ⟨hreg, hnodup⟩ := h
  unfold processDocElem
  by_cases hskip : (st.idMapping.lookup e.rawId).isSome = true
  · rw [if_pos hskip]
    exact ⟨hreg, hnodup⟩
  · rw [if_neg hskip]
    cases hname : st.docMap.lookup e.name with
    | some u =>
      refine ⟨?_, hnodup⟩
      intro d hd
      exact hreg d hd
    | none =>
      constructor
      · intro d hd
        rcases List.mem_append.mp hd with hold | hnew
        · cases hu : st.docMap.lookup d.name with
          | some v =>
            rw [lookup_append_some st.docMap _ d.name v hu]
            rfl
          | none =>
            have := hreg d hold
            rw [hu] at this
            cases this
        · have hdval := List.mem_singleton.mp hnew
          rw [hdval]
          rw [lookup_append_none st.docMap _ e.name hname]
          simp [List.lookup]
      · have hnotin : e.name ∉ st.docs.map (fun d => d.name) := by
          intro hmem
          obtain ⟨d, hd, hdn⟩ := List.mem_map.mp hmem
          have := hreg d hd
          rw [hdn, hname] at this
          cases this
        simp only [List.map_append, List.map_cons, List.map_nil]
        rw [List.nodup_append]
        exact ⟨hnodup, List.nodup_singleton _,
          by intro a ha hb; rw [List.mem_singleton.mp hb] at ha; exact hnotin ha⟩

theorem processDocs_inv (fresh : Nat → String) (elems : List DocElem)
    (st : DocState) (h : DocInv st) :
    DocInv (elems.foldl (processDocElem fresh) st) := by
  induction elems generalizing st with
  | nil => exact h
  | cons e t ih => exact ih (processDocElem fresh st e) (processDocElem_inv fresh st e h)

/-- C5: document names are unique among the `DocumentNode`s created by the
node pass (for every input and fresh-id supply), and for two
Document-classified elements sharing a name with distinct raw ids `n3` and
`n17`, exactly one `DocumentNode` is created (carrying `n3` as original id
and the identifier adopted for `n3`), and edge endpoint resolution sends
both `n3` and `n17` to the adopted identifier of `n3`. -/
theorem c5_document_dedup :
    (∀ (fresh : Nat → String) (elems : List DocElem),
      ((processDocs fresh elems).docs.map (fun d => d.name)).Nodup) ∧
    (∀ (n3 n17 nm : String) (fresh : Nat → String), n3 ≠ n17 →
      (processDocs fresh [⟨n3, nm, none⟩, ⟨n17, nm, none⟩]).docs =
        [⟨fresh 0, nm, n3⟩] ∧
      resolveEndpoint (processDocs fresh [⟨n3, nm, none⟩, ⟨n17, nm, none⟩]) n17 =
        some (fresh 0) ∧
      resolveEndpoint (processDocs fresh [⟨n3, nm, none⟩, ⟨n17, nm, none⟩]) n3 =
        some (fresh 0)) := by
  constructor
  · intro fresh elems
    exact (processDocs_inv fresh elems emptyDocState
      ⟨fun d hd => absurd hd (List.not_mem_nil d), List.nodup_nil⟩).2
  · intro n3 n17 nm fresh hne
    have h1 : (n3 == n17) = false := beq_eq_false_iff_ne.mpr hne
    have h2 : (n17 == n3) = false := beq_eq_false_iff_ne.mpr (Ne.symm hne)
    have hstate : processDocs fresh [⟨n3, nm, none⟩, ⟨n17, nm, none⟩] =
        ⟨[(n3, fresh 0), (n17, fresh 1)], [(nm, fresh 0)], [(n17, n3)],
         [⟨fresh 0, nm, n3⟩], 2⟩ := by
      unfold processDocs
      rw [List.foldl_cons, List.foldl_cons, List.foldl_nil]
      have hs1 : processDocElem fresh emptyDocState ⟨n3, nm, none⟩ =
          ⟨[(n3, fresh 0)], [(nm, fresh 0)], [], [⟨fresh 0, nm, n3⟩], 1⟩ := by
        unfold processDocElem emptyDocState
        simp [List.lookup]
      rw [hs1]
      unfold processDocElem
      simp [List.lookup, h1, h2]
    rw [hstate]
    unfold resolveEndpoint
    simp [List.lookup, h1, h2]

/-- Witness for C5: the scenario S2 instance — two Document elements named
"Report-42" with raw ids `n3` and `n17`. -/
theorem c5_witness :
    (processDocs freshU [⟨"n3", "Report-42", none⟩, ⟨"n17", "Report-42", none⟩]).docs =
      [⟨freshU 0, "Report-42", "n3"⟩] ∧
    resolveEndpoint
      (processDocs freshU [⟨"n3", "Report-42", none⟩, ⟨"n17", "Report-42", none⟩])
      "n17" = some (freshU 0) ∧
    resolveEndpoint
      (processDocs freshU [⟨"n3", "Report-42", none⟩, ⟨"n17", "Report-42", none⟩])
      "n3" = some (freshU 0) :=
  c5_document_dedup.2 "n3" "n17" "Report-42" freshU (by decide)

/-! ## Edge-type enhancement (importer/import_graphml.py) -/

/-- Modelled from the spec: the node class hierarchy (`nodes/*.py`) is not
among the provided sources.  Per spec section 3, `DocumentNode`,
`ExtractorNode`, `CombinerNode` and `PropertyNode` are the `ParadataNode`
subclasses; the tag drives the `isinstance` tests of `enhance_edge_type`. -/
inductive NodeClass where
  | document : NodeClass
  | extractor : NodeClass
  | combiner : NodeClass
  | property : NodeClass
  | paradataGroup : NodeClass
  | activityGroup : NodeClass
  | stratigraphic : NodeClass
  | generic : NodeClass
deriving Repr, DecidableEq

/-- A node as `enhance_edge_type` sees it: its `node_type` string and its
class (for the `isinstance` tests). -/
structure ENode where
  node_type : String
  cls : NodeClass
deriving Repr, DecidableEq

/-- The `stratigraphic_types` list of `enhance_edge_type`
(lines 1581-1582). -/
def stratigraphicTypes : List String :=
  ["US", "USVs", "USVn", "VSF", "SF", "USD", "serSU",
   "serUSVn", "serUSVs", "TSU", "SE", "BR", "unknown"]

/-- Embeds `GraphMLImporter.enhance_edge_type` (lines 1565-1657): refine
`has_data_provenance` and `generic_connection` raw types from the connected
node kinds, first match wins, otherwise return the raw type unchanged.
Note that the function never consults the connections datamodel. -/
def enhance_edge_type (edge_type : String) (source target : Option ENode) :
    String :=
  match source, target with
  | some s, some t =>
    if edge_type = "has_data_provenance" then
      if s.node_type ∈ stratigraphicTypes ∧ t.node_type = "property" then
        "has_property"
      else if s.node_type ∈ stratigraphicTypes ∧
          t.node_type = "ParadataNodeGroup" then
        "has_paradata_nodegroup"
      else if s.node_type = "ParadataNodeGroup" ∧
          t.node_type ∈ stratigraphicTypes then
        "has_paradata_nodegroup"
      else if s.cls = NodeClass.extractor ∧ t.cls = NodeClass.document then
        "extracted_from"
      else if s.cls = NodeClass.combiner ∧ t.cls = NodeClass.extractor then
        "combines"
      else if s.node_type ∈ stratigraphicTypes ∧ t.cls = NodeClass.document then
        "has_documentation"
      else if s.cls = NodeClass.document ∧ t.node_type ∈ stratigraphicTypes then
        "is_documentation_of"
      else edge_type
    else if edge_type = "generic_connection" then
      if s.node_type ∈ stratigraphicTypes ∧ t.cls = NodeClass.document then
        "has_documentation"
      else if s.cls = NodeClass.document ∧ t.node_type ∈ stratigraphicTypes then
        "is_documentation_of"
      else if (s.cls = NodeClass.document ∨ s.cls = NodeClass.extractor ∨
          s.cls = NodeClass.combiner ∨ s.cls = NodeClass.property) ∧
          t.node_type = "ParadataNodeGroup" then
        "is_in_paradata_nodegroup"
      else if s.node_type = "ParadataNodeGroup" ∧
          t.node_type = "ActivityNodeGroup" then
        "has_paradata_nodegroup"
      else edge_type
    else edge_type
  | _, _ => edge_type

/-- The graph as the edge pass sees it: nodes indexed by adopted id, and
the inserted edges (id, source, target, type). -/
structure EGraph where
  nodes : List (String × ENode)
  edges : List (String × String × String × String)
deriving Repr, DecidableEq

/-- Embeds `Graph.find_node_by_id` over the modelled node index. -/
def findENode (g : EGraph) (i : String) : Option ENode :=
  g.nodes.lookup i

/-- The `add_edge` failure taxonomy of spec section 4.2. -/
inductive AddEdgeError where
  | unknownNode : AddEdgeError
  | unknownEdgeType : AddEdgeError
  | forbiddenConnection : AddEdgeError
  | duplicateId : AddEdgeError
deriving Repr, DecidableEq

/-- Modelled from the spec: `Graph.add_edge` (`graph.py` is not among the
provided sources); per spec section 4.2 it fails with unknown-node (I3),
unknown-edge-type, forbidden-connection (I4, checked against the
datamodel's allowed lists through the node kinds), or duplicate-id (I2),
and otherwise records the edge.  Kind matching is the plain string match of
`validate_connection`; the broader parent-kind resolution of section 4.2 is
not exercised by the kinds studied here. -/
def add_edge (dm : ExpandedMap) (g : EGraph) (edgeId src tgt ty : String) :
    Except AddEdgeError EGraph :=
  match findENode g src, findENode g tgt with
  | some s, some t =>
    if edge_exists dm ty = false then .error .unknownEdgeType
    else if validate_connection dm s.node_type t.node_type ty = false then
      .error .forbiddenConnection
    else if g.edges.any (fun e => e.1 == edgeId) then .error .duplicateId
    else .ok { g with edges := g.edges ++ [(edgeId, src, tgt, ty)] }
  | _, _ => .error .unknownNode

/-- The edge-creation body of `parse_edges` (lines 500-531): enhance the
raw type from the connected nodes, then insert through the graph engine; a
raised insertion error is caught, an error line is printed, and the edge is
dropped — there is no retry with the raw type. -/
def insertParsedEdge (dm : ExpandedMap) (g : EGraph)
    (edgeId src tgt rawType : String) : EGraph :=
  match add_edge dm g edgeId src tgt
      (enhance_edge_type rawType (findENode g src) (findENode g tgt)) with
  | .ok g2 => g2
  | .error _ => g

/-- Whether the insertion through the graph engine raises. -/
def addEdgeFails (dm : ExpandedMap) (g : EGraph)
    (edgeId src tgt ty : String) : Bool :=
  match add_edge dm g edgeId src tgt ty with
  | .ok _ => false
  | .error _ => true

/-- A datamodel under which the enhanced type of the counterexample is
forbidden while its raw type is allowed: `has_property` only accepts `US`
sources, while `has_data_provenance` accepts `BR` sources. -/
def c3EdgeTypes : List (String × EdgeTypeEntry) :=
  [("has_property",
    { name := "has_property"
      label := "has property"
      description := ""
      allowed_source := ["US"]
      allowed_target := ["property"]
      reverse := none }),
   ("has_data_provenance",
    { name := "has_data_provenance"
      label := "has data provenance"
      description := ""
      allowed_source := ["US", "BR"]
      allowed_target := ["property", "document"]
      reverse := none })]

/-- The expanded counterexample datamodel. -/
def c3dm : ExpandedMap := buildExpanded c3EdgeTypes

/-- A continuity-marker stratigraphic node (`node_type` BR). -/
def brNode : ENode := ⟨"BR", NodeClass.stratigraphic⟩

/-- A property node (`node_type` "property"). -/
def propNode : ENode := ⟨"property", NodeClass.property⟩

/-- The counterexample graph: a BR source and a property target. -/
def c3Graph : EGraph := ⟨[("s1", brNode), ("t1", propNode)], []⟩

/-- C3 counterexample: enhancing a `has_data_provenance` edge from a BR
node to a property node yields `has_property`, whose (BR, property) kind
pair the datamodel forbids — so enhancement can produce an I4-violating
type; and when it does, the edge is dropped entirely (the resulting graph
has no edges), not inserted with the raw type as the claim states, even
though the raw type itself would have validated. -/
theorem c3_counterexample :
    enhance_edge_type "has_data_provenance" (some brNode) (some propNode) =
      "has_property" ∧
    validate_connection c3dm "BR" "property" "has_property" = false ∧
    validate_connection c3dm "BR" "property" "has_data_provenance" = true ∧
    insertParsedEdge c3dm c3Graph "e1" "s1" "t1" "has_data_provenance" =
      c3Graph ∧
    (insertParsedEdge c3dm c3Graph "e1" "s1" "t1" "has_data_provenance").edges =
      [] := by
  decide

/-- C3 (amended): `enhance_edge_type` never consults the datamodel and can
return a type whose kind pair fails I4; in that case `add_edge` raises
inside `parse_edges`, the exception is caught and printed, and the edge is
dropped entirely — the graph is returned unchanged, the edge is not
re-inserted with the original raw type. -/
theorem c3_enhanced_edge_dropped (dm : ExpandedMap) (g : EGraph)
    (edgeId src tgt rawType : String)
    (h : addEdgeFails dm g edgeId src tgt
      (enhance_edge_type rawType (findENode g src) (findENode g tgt)) = true) :
    insertParsedEdge dm g edgeId src tgt rawType = g := by
  unfold insertParsedEdge
  unfold addEdgeFails at h
  cases hres : add_edge dm g edgeId src tgt
      (enhance_edge_type rawType (findENode g src) (findENode g tgt)) with
  | ok g2 => rw [hres] at h; cases h
  | error e => rfl

/-- Witness for C3 (amended): the counterexample edge is dropped, leaving
the graph unchanged. -/
theorem c3_witness :
    insertParsedEdge c3dm c3Graph "e1" "s1" "t1" "has_data_provenance" =
      c3Graph :=
  c3_enhanced_edge_dropped c3dm c3Graph "e1" "s1" "t1" "has_data_provenance"
    (by decide)

/-! ## Epoch bands and epoch assignment (importer/import_graphml.py) -/

/-- The vertical bands accumulated by `extract_epochs` (lines 944-966):
starting from the table geometry's `y`, each row of height `h` yields the
band `[y, y + h]`, and the next row starts where it ended (`y_min = y_max;
y_max += h_row`).  Coordinates are rationals, shallowly embedding the exact
decimal values the XML carries. -/
def cumBands (y : ℚ) : List ℚ → List (ℚ × ℚ)
  | [] => []
  | h :: hs => (y, y + h) :: cumBands (y + h) hs

/-- The band boundaries: the running `y` values, shared between adjacent
rows of one swimlane. -/
def boundaries (y : ℚ) : List ℚ → List ℚ
  | [] => [y]
  | h :: hs => y :: boundaries (y + h) hs

/-- Embeds `connect_nodes_to_epochs` (lines 1179-1199): the epochs for which a
`has_first_epoch` edge is created for a node at `yPos` are exactly those
with `epoch.min_y < y_pos < epoch.max_y` (strict comparisons, line 1193);
the other branches of the loop create only `survive_in_epoch` edges. -/
def firstEpochsFor (yPos : ℚ) (epochs : List (ℚ × ℚ)) : List (ℚ × ℚ) :=
  epochs.filter (fun e => decide (e.1 < yPos ∧ yPos < e.2))

theorem boundaries_le (hs : List ℚ) (y : ℚ) (hpos : ∀ h ∈ hs, 0 ≤ h)
    (b : ℚ) (hb : b ∈ boundaries y hs) : y ≤ b := by
  induction hs generalizing y with
  | nil =>
    rw [boundaries] at hb
    rw [List.mem_singleton.mp hb]
  | cons h t ih =>
    rw [boundaries] at hb
    rcases List.mem_cons.mp hb with hby | hbt
    · rw [hby]
    · have hh : 0 ≤ h := hpos h (List.mem_cons_self h t)
      have := ih (y + h) (fun x hx => hpos x (List.mem_cons_of_mem h hx)) hbt
      linarith

theorem no_band_contains (hs : List ℚ) (y : ℚ) (hpos : ∀ h ∈ hs, 0 ≤ h)
    (b : ℚ) (hcase : b ≤ y ∨ b ∈ boundaries y hs) :
    firstEpochsFor b (cumBands y hs) = [] := by
  induction hs generalizing y with
  | nil => rfl
  | cons h t ih =>
    have hh : 0 ≤ h := hpos h (List.mem_cons_self h t)
    have hpos' : ∀ x ∈ t, 0 ≤ x := fun x hx => hpos x (List.mem_cons_of_mem h hx)
    have hhead : ¬ (y < b ∧ b < y + h) := by
      rcases hcase with hle | hmem
      · intro hc
        linarith [hc.1]
      · rw [boundaries] at hmem
        rcases List.mem_cons.mp hmem with hby | hbt
        · intro hc
          rw [hby] at hc
          exact lt_irrefl y hc.1
        · have := boundaries_le t (y + h) hpos' b hbt
          intro hc
          linarith [hc.2]
    have htail : b ≤ y + h ∨ b ∈ boundaries (y + h) t := by
      rcases hcase with hle | hmem
      · exact Or.inl (by linarith)
      · rw [boundaries] at hmem
        rcases List.mem_cons.mp hmem with hby | hbt
        · exact Or.inl (by rw [hby]; linarith)
        · exact Or.inr hbt
    rw [cumBands]
    unfold firstEpochsFor
    rw [List.filter_cons]
    have hdec : decide ((y, y + h).1 < b ∧ b < (y, y + h).2) = false := by
      simpa using hhead
    rw [hdec]
    simp only [Bool.false_eq_true, if_false]
    exact ih (y + h) hpos' htail

/-- C9: `has_first_epoch` edges are created only under the strict
conditions `min_y < y_pos < max_y`, so a node whose `y_pos` equals any band
boundary of the swimlane (the shared `min_y`/`max_y` values of adjacent
epochs) receives no `has_first_epoch` edge at all (given non-negative row
heights). -/
theorem c9_boundary_no_first_epoch (y0 : ℚ) (hs : List ℚ)
    (hpos : ∀ h ∈ hs, 0 ≤ h) (b : ℚ) (hb : b ∈ boundaries y0 hs) :
    firstEpochsFor b (cumBands y0 hs) = [] :=
  no_band_contains hs y0 hpos b (Or.inr hb)

/-- Witness for C9: three rows of height 100 starting at 0 give bands
`[0,100], [100,200], [200,300]`; a node at the shared boundary 100 receives
no `has_first_epoch` edge. -/
theorem c9_witness :
    (∀ h ∈ ([100, 100, 100] : List ℚ), 0 ≤ h) ∧
    (100 : ℚ) ∈ boundaries 0 [100, 100, 100] ∧
    firstEpochsFor 100 (cumBands 0 [100, 100, 100]) = [] :=
  ⟨by norm_num, by norm_num [boundaries],
   c9_boundary_no_first_epoch 0 [100, 100, 100] (by norm_num) 100
     (by norm_num [boundaries])⟩

end S3Dgraphy
